import Mathlib

/-!
Verification of the discrete modal state-space engine of the `fem` repository.

The development shallowly embeds, over the real numbers, the code of
`src/dos/exponential.rs`, `src/dos/exponential_matrix.rs`,
`src/dos/discrete_state_space.rs`, `src/dos/discrete_modal_solver.rs`,
`src/dos.rs` (the `SplitFem`/`Set` machinery) and the parts of `src/fem/mod.rs`
they call (`in2modes`, `modes2out`, `trim2input`, `trim2output`,
`eigen_frequencies_to_radians`).

Conventions of the embedding:
  * `f64` scalars become `ℝ`; `Vec<f64>` becomes `List ℝ`.
  * An nalgebra `DMatrix<f64>` becomes a row-major `List (List ℝ)`.
  * Rust iterator `zip` truncates to the shorter operand; the embedding uses
    `List.zipWith`, which has the same semantics.
  * Mutating methods become functions returning the updated value.
  * Fallible build code returns `Except BuildError`; a Rust `panic!`
    (an `Option::unwrap` on `None`, an `expect`, or an integer division by
    zero) is the `BuildError.panicked` variant, distinct from the typed
    `StateSpaceError` variants.
  * The rayon parallel fold/reduce of the step function is embedded as the
    sequential left fold with the same per-element accumulation; over `ℝ`
    addition is associative and commutative, so the parallel reduction tree
    computes the same value.
-/

namespace Fem

/-- Row-major matrix of reals, as produced by `DMatrix::from_row_slice`. -/
abbrev Mat := List (List ℝ)

/-- Number of rows of a row-major matrix. -/
def nrows (m : Mat) : ℕ := m.length

/-- Number of columns of a row-major matrix (length of the first row). -/
def ncols (m : Mat) : ℕ := (m.headD []).length

/-- Entry `m[j, i]` (row `j`, column `i`), zero outside the stored data. -/
def entry (m : Mat) (j i : ℕ) : ℝ := (m.getD j []).getD i 0

/-- Write value `v` at row `j`, column `i`; out-of-range writes are dropped
(`List.set` is the identity out of range). -/
def setEntry (m : Mat) (j i : ℕ) (v : ℝ) : Mat :=
  m.set j ((m.getD j []).set i v)

/-- Splits a flat slice into consecutive chunks of `n` elements, as Rust's
`slice::chunks`; the degenerate chunk size `0` yields no chunks. -/
def chunks (n : ℕ) : List α → List (List α)
  | [] => []
  | x :: xs =>
    if _h : n = 0 then []
    else (x :: xs).take n :: chunks n ((x :: xs).drop n)
termination_by l => l.length
decreasing_by
  simp only [List.length_drop, List.length_cons]
  omega

/-- Truncating dot product, as `b.iter().zip(u).fold(0., |s, (b, u)| s + b * u)`. -/
def dotTrunc (b u : List ℝ) : ℝ := (List.zipWith (· * ·) b u).sum

/-- Column `j` of a row-major matrix. -/
def col (m : Mat) (j : ℕ) : List ℝ := m.map (fun r => r.getD j 0)

/-- Row `k` of a row-major matrix. -/
def row (m : Mat) (k : ℕ) : List ℝ := m.getD k []

/-- Matrix product of row-major matrices. -/
def matMul (a b : Mat) : Mat :=
  a.map (fun r => (List.range (ncols b)).map (fun j => dotTrunc r (col b j)))

/-- Entrywise matrix difference (`DMatrix` subtraction). -/
def matSub (a b : Mat) : Mat := List.zipWith (fun ra rb => List.zipWith (· - ·) ra rb) a b

/-- Square diagonal matrix with the given diagonal
(`DMatrix::from_diagonal`). -/
def diagMat (d : List ℝ) : Mat :=
  (List.range d.length).map (fun j =>
    (List.range d.length).map (fun i => if i = j then d.getD j 0 else 0))

/-- Matrix · vector product (`DMatrix * DVector`), one truncating dot per row. -/
def matVec (m : Mat) (v : List ℝ) : List ℝ := m.map (fun r => dotTrunc r v)

/-- Accumulation `a.iter_mut().zip(y).for_each(|(a, y)| *a += y)`: the first
`min` entries are summed, the remaining entries of `a` are kept. -/
def addInto (a y : List ℝ) : List ℝ := List.zipWith (· + ·) a y ++ a.drop y.length

/-- Removes the first `k` columns (`DMatrix::remove_columns(0, k)`). -/
def removeCols (m : Mat) (k : ℕ) : Mat := m.map (fun r => r.drop k)

/-- Removes the first `k` rows (`DMatrix::remove_rows(0, k)`). -/
def removeRows (m : Mat) (k : ℕ) : Mat := m.drop k

/-- Horizontal concatenation of matrices each having `n` rows, the effect of
collecting all columns truncated to `n` entries into
`DMatrix::from_column_slice(n, total, v)`. -/
def hcatRows (n : ℕ) (mats : List Mat) : Mat :=
  mats.foldl (fun acc m => List.zipWith (· ++ ·) acc m) (List.replicate n ([] : List ℝ))

/-- Horizontal concatenation keyed on the first operand's rows, the effect of
`DMatrix::from_columns` on a non-empty collection of column vectors. -/
def hcatAny (mats : List Mat) : Mat :=
  match mats with
  | [] => []
  | m :: rest => rest.foldl (fun acc m2 => List.zipWith (· ++ ·) acc m2) m

/-- Principal square root of a complex number, `num_complex`'s `Complex::sqrt`. -/
noncomputable def csqrt (z : ℂ) : ℂ := z ^ ((1 : ℂ) / 2)

/-- A 2×2 real matrix as the row-major tuple `(e00, e01, e10, e11)`;
`nalgebra::Matrix2::new` takes its arguments in exactly this row-major order. -/
abbrev Mat2 := ℝ × ℝ × ℝ × ℝ

/-- Product of two 2×2 matrices in row-major tuple form. -/
def mat2Mul (a b : Mat2) : Mat2 :=
  (a.1 * b.1 + a.2.1 * b.2.2.1, a.1 * b.2.1 + a.2.1 * b.2.2.2,
   a.2.2.1 * b.1 + a.2.2.2 * b.2.2.1, a.2.2.1 * b.2.1 + a.2.2.2 * b.2.2.2)

/-- Difference of two 2×2 matrices in row-major tuple form. -/
def mat2Sub (a b : Mat2) : Mat2 :=
  (a.1 - b.1, a.2.1 - b.2.1, a.2.2.1 - b.2.2.1, a.2.2.2 - b.2.2.2)

/-- The 2×2 identity matrix. -/
def mat2Id : Mat2 := (1, 0, 0, 1)

/-- The trait `Solver` of `src/dos.rs`: construction of a discrete 2×2 model
from the second-order continuous parameters, one-step propagation, and access
to the scratch output vector returned by `solve`. -/
class Solver (T : Type) where
  fromSecondOrder : ℝ → ℝ → ℝ → List ℝ → List ℝ → T
  solve : T → List ℝ → T
  output : T → List ℝ

/-- The `Exponential` structure of `src/dos/exponential.rs`.  `q` is the
discrete transition matrix stored row-major as `(q00, q01, q10, q11)` (the
source stores `(ad[0], ad[2], ad[1], ad[3])` from a column-major `Matrix2`,
which is the same row-major order), `m` is the 2×1 input gain. -/
structure Exponential where
  tau : ℝ
  q : Mat2
  m : ℝ × ℝ
  b : List ℝ
  c : List ℝ
  y : List ℝ
  x : ℝ × ℝ

/-- Embeds `Exponential::from_second_order`: the ω = 0 branch uses the closed form;
the general branch diagonalizes the 2×2 block in complex arithmetic
(`z = sqrt(x²(y²-1))`, poles `z ∓ xy`) and keeps real parts. -/
noncomputable def Exponential.fromSecondOrder (tau omega zeta : ℝ)
    (continuousBb continuousCc : List ℝ) : Exponential :=
  let n := continuousCc.length
  if omega = 0 then
    { tau := tau
      q := (1, tau, 0, 1)
      m := (0.5 * tau * tau, tau)
      b := continuousBb
      c := continuousCc
      y := List.replicate n 0
      x := (0, 0) }
  else
    let x : ℂ := ⟨omega, 0⟩
    let y : ℂ := ⟨zeta, 0⟩
    let ia : Mat2 := ((-2 * y / x).re, -1 / (x * x).re, 1, 0)
    let z : ℂ := csqrt (x * x * (y * y - 1))
    let zmxy : ℂ := z - x * y
    let zpxy : ℂ := z + x * y
    let ezmxy : ℂ := Complex.exp ((tau : ℂ) * zmxy)
    let ezpxy : ℂ := Complex.exp (-(tau : ℂ) * zpxy)
    let ad : Mat2 :=
      (((zpxy * ezmxy + zmxy * ezpxy) / (2 * z)).re,
       ((ezmxy - ezpxy) / (2 * z)).re,
       (x * x * (ezpxy - ezmxy) / (2 * z)).re,
       ((zmxy * ezmxy + zpxy * ezpxy) / (2 * z)).re)
    let bd : Mat2 := mat2Mul ia (mat2Sub ad mat2Id)
    { tau := tau
      q := ad
      m := (bd.2.1, bd.2.2.2)
      b := continuousBb
      c := continuousCc
      y := List.replicate n 0
      x := (0, 0) }

/-- Embeds `Exponential::solve`: the output is produced from the state **before** the
update (`*y = c * x0` with the old `x0`), then the state is advanced. -/
def Exponential.solve (s : Exponential) (u : List ℝ) : Exponential :=
  let x0 := s.x.1
  let x1 := s.x.2
  let y2 := List.zipWith (fun _ c => c * x0) s.y s.c
  let v := dotTrunc s.b u
  { s with
    y := y2
    x := (s.q.1 * x0 + s.q.2.1 * x1 + s.m.1 * v,
          s.q.2.2.1 * x0 + s.q.2.2.2 * x1 + s.m.2 * v) }

noncomputable instance solverExponential : Solver Exponential where
  fromSecondOrder := Exponential.fromSecondOrder
  solve := Exponential.solve
  output := Exponential.y

/-- The `ExponentialMatrix` structure of `src/dos/exponential_matrix.rs`;
`phi` is the transition matrix stored row-major (the source stores
`(e[0].re, e[3].re, e[1].re, e[4].re)` from a column-major `Matrix3`, i.e.
`(e00, e01, e10, e11)`), `gamma` is `(e[6].re, e[7].re) = (e02, e12)`. -/
structure ExponentialMatrix where
  tau : ℝ
  phi : Mat2
  gamma : ℝ × ℝ
  b : List ℝ
  c : List ℝ
  y : List ℝ
  x : ℝ × ℝ

/-- The 3×3 complex matrix `exp_3by3m` of
`ExponentialMatrix::from_second_order`, written row-major (the source builds
it from its three columns). -/
noncomputable def expMatrix3 (tau omega zeta : ℝ) : Fin 3 → Fin 3 → ℂ :=
  if omega ≠ 0 then
    let lambdaCplx : ℂ := ⟨-omega * zeta, omega * Real.sqrt (1 - zeta * zeta)⟩
    let v11 : ℂ := ⟨1 / Real.sqrt (1 + omega ^ 4), 0⟩
    let v31 : ℂ := (omega * omega : ℝ) * v11
    let v12 : ℝ := 1 / Real.sqrt (1 + Complex.normSq lambdaCplx)
    let v13 : ℝ := 1 / Real.sqrt (1 + Complex.normSq (starRingEnd ℂ lambdaCplx))
    let v : Matrix (Fin 3) (Fin 3) ℂ :=
      !![v11, ⟨v12, 0⟩, ⟨v13, 0⟩;
         0, lambdaCplx * v12, starRingEnd ℂ lambdaCplx * v13;
         v31, 0, 0]
    let kRow2 : ℂ := ((v12 : ℂ) * (starRingEnd ℂ lambdaCplx - lambdaCplx))⁻¹
    let kRow3 : ℂ := ((v13 : ℂ) * (starRingEnd ℂ lambdaCplx - lambdaCplx))⁻¹
    let invV : Matrix (Fin 3) (Fin 3) ℂ :=
      !![0, 0, v31⁻¹;
         starRingEnd ℂ lambdaCplx * kRow2, -1 * kRow2,
           -(starRingEnd ℂ lambdaCplx / (omega * omega : ℝ)) * kRow2;
         -lambdaCplx * kRow3, 1 * kRow3, lambdaCplx / (omega * omega : ℝ) * kRow3]
    let diagExp : Matrix (Fin 3) (Fin 3) ℂ :=
      !![1, 0, 0;
         0, Complex.exp (lambdaCplx * tau), 0;
         0, 0, Complex.exp (starRingEnd ℂ lambdaCplx * tau)]
    fun i j => (v * diagExp * invV) i j
  else
    fun i j =>
      !![1, (tau : ℂ), ⟨0.5 * tau * tau, 0⟩;
         0, 1, (tau : ℂ);
         0, 0, 1] i j

/-- Embeds `ExponentialMatrix::from_second_order`: reads `phi` and `gamma` off the
real parts of the 3×3 augmented exponential. -/
noncomputable def ExponentialMatrix.fromSecondOrder (tau omega zeta : ℝ)
    (continuousBb continuousCc : List ℝ) : ExponentialMatrix :=
  let e := expMatrix3 tau omega zeta
  let n := continuousCc.length
  { tau := tau
    phi := ((e 0 0).re, (e 0 1).re, (e 1 0).re, (e 1 1).re)
    gamma := ((e 0 2).re, (e 1 2).re)
    b := continuousBb
    c := continuousCc
    y := List.replicate n 0
    x := (0, 0) }

/-- Embeds `ExponentialMatrix::solve`: the state is updated first, then the output is
produced from the **new** state (`*y = c * self.x.0` after the update). -/
def ExponentialMatrix.solve (s : ExponentialMatrix) (u : List ℝ) : ExponentialMatrix :=
  let x0 := s.x.1
  let x1 := s.x.2
  let v := dotTrunc s.b u
  let x0new := s.phi.1 * x0 + s.phi.2.1 * x1 + s.gamma.1 * v
  let x1new := s.phi.2.2.1 * x0 + s.phi.2.2.2 * x1 + s.gamma.2 * v
  { s with
    x := (x0new, x1new)
    y := List.zipWith (fun _ c => c * x0new) s.y s.c }

noncomputable instance solverExponentialMatrix : Solver ExponentialMatrix where
  fromSecondOrder := ExponentialMatrix.fromSecondOrder
  solve := ExponentialMatrix.solve
  output := ExponentialMatrix.y

/-- Identifier of a named FEM input or output group.  The six groups that the
DC-gain compensation treats specially are distinguished; every other generated
group type is `other n`. -/
inductive FemTag where
  | ossAzDriveTorque
  | ossElDriveTorque
  | ossRotDriveTorque
  | ossAzEncoderAngle
  | ossElEncoderAngle
  | ossRotEncoderAngle
  | other (n : ℕ)
deriving DecidableEq, Repr

/-- One DOF entry of a group: `IO::On` carries the 1-based global indices used
to slice the modal matrices, `IO::Off` is skipped everywhere. -/
inductive IOE where
  | on (indices : List ℕ)
  | off
deriving DecidableEq, Repr

/-- A named group of the FEM payload (one variant of the generated
`fem_io::Inputs`/`Outputs` enums together with its `Vec<IO>`). -/
structure FemGroup where
  tag : FemTag
  ios : List IOE
deriving DecidableEq, Repr

/-- The `FEM` structure of `src/fem/mod.rs` (the fields the state-space
builder reads). -/
structure FEM where
  eigenFrequencies : List ℝ
  inputs : List (Option FemGroup)
  outputs : List (Option FemGroup)
  inputsToModalForces : List ℝ
  modalDispToOutputs : List ℝ
  proportionalDampingVec : List ℝ
  staticGain : Option (List ℝ)

/-- Embeds `FEM::n_modes`: the number of eigen frequencies. -/
def FEM.nModes (f : FEM) : ℕ := f.eigenFrequencies.length

/-- Embeds `FEM::eigen_frequencies_to_radians`: Hz → rad/s via `2π·x`. -/
noncomputable def FEM.eigenFrequenciesToRadians (f : FEM) : List ℝ :=
  f.eigenFrequencies.map (fun x => 2 * Real.pi * x)

/-- Rust's `f64::to_radians`: multiplication by `π/180` (degrees → radians). -/
noncomputable def toRadians (v : ℝ) : ℝ := v * (Real.pi / 180)

/-- The enabled (`IO::On`) 1-based indices of a group, in declaration order. -/
def FemGroup.onIndices (g : FemGroup) : List ℕ :=
  (g.ios.filterMap (fun io => match io with
    | IOE.on idx => some idx
    | IOE.off => none)).flatten

/-- The generated `FemIo::position` for inputs: the index of the matching
variant **among the `Some` entries** of the inputs vector. -/
def positionIn (f : FEM) (t : FemTag) : Option ℕ :=
  (f.inputs.filterMap id).findIdx? (fun g => g.tag = t)

/-- The generated `FemIo::position` for outputs. -/
def positionOut (f : FEM) (t : FemTag) : Option ℕ :=
  (f.outputs.filterMap id).findIdx? (fun g => g.tag = t)

/-- Embeds `FEM::input2modes`: the flat row-major slice of the inputs-to-modes matrix
restricted to the group's enabled columns (1-based indices). -/
def FEM.input2modes (f : FEM) (id : ℕ) : Option (List ℝ) :=
  (f.inputs.getD id none).map (fun input =>
    let indices := input.onIndices
    let n := f.inputsToModalForces.length / f.nModes
    (chunks n f.inputsToModalForces).flatMap
      (fun r => indices.map (fun i => r.getD (i - 1) 0)))

/-- Embeds `FEM::in2modes::<U>`: position lookup followed by `input2modes`. -/
def FEM.in2modes (f : FEM) (t : FemTag) : Option (List ℝ) :=
  (positionIn f t).bind (fun id => f.input2modes id)

/-- Embeds `FEM::modes2output`: the flat slice of the modes-to-outputs matrix
restricted to the group's enabled rows (1-based indices). -/
def FEM.modes2output (f : FEM) (id : ℕ) : Option (List ℝ) :=
  let q := chunks f.nModes f.modalDispToOutputs
  (f.outputs.getD id none).map (fun output =>
    (output.onIndices.map (fun i => q.getD (i - 1) [])).flatten)

/-- Embeds `FEM::modes2out::<U>`: position lookup followed by `modes2output`. -/
def FEM.modes2out (f : FEM) (t : FemTag) : Option (List ℝ) :=
  (positionOut f t).bind (fun id => f.modes2output id)

/-- Embeds `FEM::trim2input`: keeps the group's enabled columns of `matrix`. -/
def FEM.trim2input (f : FEM) (id : ℕ) (matrix : Mat) : Option Mat :=
  (f.inputs.getD id none).map (fun input =>
    matrix.map (fun r => input.onIndices.map (fun i => r.getD (i - 1) 0)))

/-- Embeds `FEM::trim2in::<U>`. -/
def FEM.trim2in (f : FEM) (t : FemTag) (matrix : Mat) : Option Mat :=
  (positionIn f t).bind (fun id => f.trim2input id matrix)

/-- Embeds `FEM::trim2output`: keeps the group's enabled rows of `matrix`. -/
def FEM.trim2output (f : FEM) (id : ℕ) (matrix : Mat) : Option Mat :=
  (f.outputs.getD id none).map (fun output =>
    output.onIndices.map (fun i => matrix.getD (i - 1) []))

/-- Embeds `FEM::trim2out::<U>`. -/
def FEM.trim2out (f : FEM) (t : FemTag) (matrix : Mat) : Option Mat :=
  (positionOut f t).bind (fun id => f.trim2output id matrix)

/-- Embeds `SplitFem<U>` of `src/dos.rs`: the group's type tag together with its
half-open positional range `[start, stop)` into the assembled `u` or `y`
vector. -/
structure SplitFem where
  tag : FemTag
  range : ℕ × ℕ
deriving DecidableEq, Repr

/-- Embeds `GetIn::get_in`: the group's inputs-to-modes sub-matrix, shaped
`n_modes × k` by `DMatrix::from_row_slice(n_modes, len / n_modes, x)`. -/
def getIn (f : FEM) (t : FemTag) : Option Mat :=
  (f.in2modes t).map (fun x => chunks (x.length / f.nModes) x)

/-- Embeds `GetOut::get_out`: the group's modes-to-outputs sub-matrix, shaped
`k × n_modes`. -/
def getOut (f : FEM) (t : FemTag) : Option Mat :=
  (f.modes2out t).map (fun x => chunks f.nModes x)

/-- Build failures.  `missingArguments` and `matrix` are the
`StateSpaceError` variants the builder returns; `panicked` is a Rust panic —
an `Option::unwrap` on `None`, an `expect`, or an integer division by zero —
which aborts the process and is *not* a typed error. -/
inductive BuildError where
  | missingArguments (s : String)
  | matrix (s : String)
  | panicked
deriving DecidableEq, Repr

/-- The `DiscreteStateSpace` builder configuration of
`src/dos/discrete_state_space.rs`. -/
structure DiscreteStateSpace where
  sampling : Option ℝ := none
  fem : Option FEM := none
  zeta : Option ℝ := none
  eigenFrequencies : Option (List (ℕ × ℝ)) := none
  maxEigenFrequency : Option ℝ := none
  hankelSingularValuesThreshold : Option ℝ := none
  nIo : Option (ℕ × ℕ) := none
  ins : List SplitFem := []
  outs : List SplitFem := []
  outsTransform : List (Option Mat) := []

/-- Embeds `DiscreteStateSpace::hankel_singular_value`:
`0.25 · ‖b‖₂ · ‖c‖₂ / (w · z)`. -/
noncomputable def hankelSingularValue (w z : ℝ) (b c : List ℝ) : ℝ :=
  let normX : List ℝ → ℝ := fun x => Real.sqrt (x.map (fun v => v * v)).sum
  0.25 * normX b * normX c / (w * z)

/-- The eigen-frequency override loop of `DiscreteStateSpace::properties`:
`w[i] = v.to_radians()` for each pair `(i, v)`. -/
noncomputable def applyEigenOverrides (w : List ℝ) (ov : List (ℕ × ℝ)) : List ℝ :=
  ov.foldl (fun w p => w.set p.1 (toRadians p.2)) w

/-- Embeds `DiscreteStateSpace::properties`: eigen frequencies in rad/s (with
overrides), the retained mode count, and the damping vector. -/
noncomputable def propertiesE (cfg : DiscreteStateSpace) :
    Except BuildError (List ℝ × ℕ × List ℝ) :=
  match cfg.fem with
  | none => .error (.missingArguments "FEM")
  | some fem =>
    let w0 := fem.eigenFrequenciesToRadians
    let w := match cfg.eigenFrequencies with
      | none => w0
      | some ov => applyEigenOverrides w0 ov
    let nModes := match cfg.maxEigenFrequency with
      | none => fem.nModes
      | some maxEf =>
        fem.eigenFrequencies.foldl (fun n ef => if ef ≤ maxEf then n + 1 else n) 0
    let zeta := match cfg.zeta with
      | some z => List.replicate nModes z
      | none => fem.proportionalDampingVec
    .ok (w, nModes, zeta)

/-- The per-group loop of `DiscreteStateSpace::in2mode`: fetches each selected
group's sub-matrix (`get_in(fem).unwrap()` — a panic when the group is absent
from the payload), assigns its positional range from the running offset, and
collects the matrices. -/
def in2modeGo (fem : FEM) (s : ℕ) :
    List SplitFem → Except BuildError (List SplitFem × List Mat)
  | [] => .ok ([], [])
  | g :: gs =>
    match getIn fem g.tag with
    | none => .error .panicked
    | some mat =>
      let l := ncols mat
      match in2modeGo fem (s + l) gs with
      | .error e => .error e
      | .ok (gs2, mats) => .ok ({ g with range := (s, s + l) } :: gs2, mat :: mats)

/-- Embeds `DiscreteStateSpace::in2mode`: `None` when the FEM is missing; otherwise
the updated input descriptors and the reduced inputs-to-modes matrix
(`n_mode` rows, every group's columns concatenated) built by
`DMatrix::from_column_slice(n_mode, v.len() / n_mode, &v)`.  The division
`v.len() / n_mode` panics — integer division by zero — when `n_mode = 0`. -/
def in2modeE (cfg : DiscreteStateSpace) (nMode : ℕ) :
    Except BuildError (Option (List SplitFem × Mat)) :=
  match cfg.fem with
  | none => .ok none
  | some fem =>
    match in2modeGo fem 0 cfg.ins with
    | .error e => .error e
    | .ok (ins2, mats) =>
      if nMode = 0 then .error .panicked
      else .ok (some (ins2, hcatRows nMode (mats.map (fun m => m.take nMode))))

/-- The per-group loop of `DiscreteStateSpace::mode2out`: as `in2modeGo`, with
the optional user transform pre-multiplied and ranges advanced by row count. -/
def mode2outGo (fem : FEM) (s : ℕ) :
    List (SplitFem × Option Mat) → Except BuildError (List SplitFem × List Mat)
  | [] => .ok ([], [])
  | (g, t) :: gs =>
    match getOut fem g.tag with
    | none => .error .panicked
    | some mat0 =>
      let mat := match t with
        | some tm => matMul tm mat0
        | none => mat0
      let l := nrows mat
      match mode2outGo fem (s + l) gs with
      | .error e => .error e
      | .ok (gs2, mats) => .ok ({ g with range := (s, s + l) } :: gs2, mat :: mats)

/-- Embeds `DiscreteStateSpace::mode2out`: the updated output descriptors and the
reduced modes-to-outputs matrix (every group's rows stacked, each row
truncated to `n_mode` columns) built by
`DMatrix::from_row_slice(v.len() / n_mode, n_mode, &v)`.  The division
`v.len() / n_mode` panics — integer division by zero — when `n_mode = 0`. -/
def mode2outE (cfg : DiscreteStateSpace) (nMode : ℕ) :
    Except BuildError (Option (List SplitFem × Mat)) :=
  match cfg.fem with
  | none => .ok none
  | some fem =>
    match mode2outGo fem 0 (cfg.outs.zip cfg.outsTransform) with
    | .error e => .error e
    | .ok (outs2, mats) =>
      if nMode = 0 then .error .panicked
      else .ok (some (outs2, (mats.map (fun m => m.map (fun r => r.take nMode))).flatten))

/-- Embeds `DiscreteStateSpace::reduce2io`: trims a full-size matrix to the selected
input columns and output rows (with the optional output transforms). -/
def reduce2io (cfg : DiscreteStateSpace) (matrix : Mat) : Option Mat :=
  match cfg.fem with
  | none => none
  | some fem =>
    let m := hcatAny (cfg.ins.filterMap (fun g => fem.trim2in g.tag matrix))
    some (((cfg.outs.zip cfg.outsTransform).filterMap (fun gt =>
      match fem.trim2out gt.1.tag m, gt.2 with
      | some x, some tm => some (matMul tm x)
      | x, none => x
      | _, _ => none)).flatten)

/-- The positional range of the descriptor with the given tag, the embedding
of `ins.iter().find_map(|x| x.as_any().downcast_ref::<SplitFem<G>>())
.map(|x| x.range.clone())`. -/
def findRange (gs : List SplitFem) (t : FemTag) : Option (ℕ × ℕ) :=
  (gs.find? (fun g => g.tag = t)).map (fun g => g.range)

/-- The indices `[start, stop)` of a positional range, as collecting a Rust
`Range<usize>`. -/
def rangeList (r : ℕ × ℕ) : List ℕ := List.range' r.1 (r.2 - r.1)

/-- The drive-torque column indices of ψ: the azimuth, elevation and rotator
`DriveTorque` ranges chained and flattened. -/
def torqueIndices (ins : List SplitFem) : List ℕ :=
  (((findRange ins .ossAzDriveTorque).toList ++
    (findRange ins .ossElDriveTorque).toList ++
    (findRange ins .ossRotDriveTorque).toList).map rangeList).flatten

/-- The encoder-angle row indices of ψ: the azimuth, elevation and rotator
`EncoderAngle` ranges chained and flattened. -/
def encIndices (outs : List SplitFem) : List ℕ :=
  (((findRange outs .ossAzEncoderAngle).toList ++
    (findRange outs .ossElEncoderAngle).toList ++
    (findRange outs .ossRotEncoderAngle).toList).map rangeList).flatten

/-- The zeroing double loop of `DiscreteStateSpace::build`:
`for i in torque_indices { for j in enc_indices { psi_dcg[(j, i)] = 0. } }` —
every (encoder row, torque column) pair of the **cross product** is zeroed. -/
def zeroDriveEncoderCoupling (psi0 : Mat) (ins outs : List SplitFem) : Mat :=
  (torqueIndices ins).foldl
    (fun p i => (encIndices outs).foldl (fun p j => setEntry p j i 0) p) psi0

/-- The ψ computation of `DiscreteStateSpace::build` (the `psi_dcg` block):
trimmed static gain minus the dynamic asymptotic gain of the modes past the
first three, then the drive/encoder zeroing loop.  Panics (as the source
does via `unwrap`/`expect`) when the static gain is absent. -/
noncomputable def computePsiDcg (cfg : DiscreteStateSpace) (w : List ℝ) (nModes : ℕ)
    (forces2modes modes2nodes : Mat) (ins2 outs2 : List SplitFem) :
    Except BuildError (Option Mat) :=
  match cfg.nIo with
  | none => .ok none
  | some nIo =>
    match cfg.fem with
    | none => .error .panicked
    | some fem =>
      match fem.staticGain with
      | none => .error .panicked
      | some sg =>
        let q := chunks nIo.1 sg
        match reduce2io cfg q with
        | none => .error .panicked
        | some staticGain =>
          let d := diagMat (((w.drop 3).take (nModes - 3)).map (fun x => x⁻¹ * x⁻¹))
          let dynStaticGain := matMul (matMul (removeCols modes2nodes 3) d)
            (removeRows forces2modes 3)
          .ok (some (zeroDriveEncoderCoupling (matSub staticGain dynStaticGain) ins2 outs2))

/-- The state-space assembly loop of `DiscreteStateSpace::build`: one solver
per retained mode; with a Hankel-singular-value threshold only the modes with
`hsv > threshold` are instantiated. -/
noncomputable def mkStateSpace (T : Type) [Solver T] (tau : ℝ) (w zeta : List ℝ)
    (nModes : ℕ) (forces2modes modes2nodes : Mat) (thr : Option ℝ) : List T :=
  match thr with
  | some hsvT =>
    (List.range nModes).filterMap (fun k =>
      let b := row forces2modes k
      let c := col modes2nodes k
      let hsv := hankelSingularValue (w.getD k 0) (zeta.getD k 0) b c
      if hsv > hsvT then
        some (Solver.fromSecondOrder tau (w.getD k 0) (zeta.getD k 0) b c)
      else none)
  | none =>
    (List.range nModes).map (fun k =>
      Solver.fromSecondOrder tau (w.getD k 0) (zeta.getD k 0)
        (row forces2modes k) (col modes2nodes k))

/-- The `DiscreteModalSolver` runtime container of
`src/dos/discrete_modal_solver.rs`. -/
structure DiscreteModalSolver (T : Type) where
  u : List ℝ
  y : List ℝ
  ySizes : List ℕ
  stateSpace : List T
  psiDcg : Option Mat
  psiTimesU : List ℝ
  ins : List SplitFem
  outs : List SplitFem

/-- Embeds `DiscreteStateSpace::build`: sampling check, properties, reduced modal
matrices (with panics on absent groups), optional ψ, mode bank; the returned
solver takes `y_sizes` and `psi_times_u` from `Default::default()` (empty). -/
noncomputable def build (T : Type) [Solver T] (cfg : DiscreteStateSpace) :
    Except BuildError (DiscreteModalSolver T) :=
  match cfg.sampling with
  | none => .error (.missingArguments "sampling")
  | some sampling =>
    let tau := 1 / sampling
    match propertiesE cfg with
    | .error e => .error e
    | .ok (w, nModes, zeta) =>
      match in2modeE cfg nModes, mode2outE cfg nModes with
      | .error e, _ => .error e
      | .ok (some _), .error e => .error e
      | .ok (some (ins2, forces2modes)), .ok (some (outs2, modes2nodes)) =>
        match computePsiDcg cfg w nModes forces2modes modes2nodes ins2 outs2 with
        | .error e => .error e
        | .ok psiDcg =>
          .ok
            { u := List.replicate (ncols forces2modes) 0
              y := List.replicate (nrows modes2nodes) 0
              ySizes := []
              stateSpace := mkStateSpace T tau w zeta nModes forces2modes modes2nodes
                cfg.hankelSingularValuesThreshold
              psiDcg := psiDcg
              psiTimesU := []
              ins := ins2
              outs := outs2 }
      | .ok (some _), .ok none =>
        .error (.matrix "Failed to build modes to nodes transformation matrix")
      | .ok none, .ok (some _) =>
        .error (.matrix "Failed to build forces to nodes transformation matrix")
      | .ok none, _ =>
        .error (.matrix "Failed to build both modal transformation matrices")

/-- The shared mode-summation of both `Iterator::next` implementations: the
(parallel) fold of each mode's `solve` output into a zero accumulator of
length `n = y.len()`. -/
def modeFold (T : Type) [Solver T] (u : List ℝ) (n : ℕ) (ms : List T) : List ℝ :=
  ms.foldl (fun a m => addInto a (Solver.output (Solver.solve m u))) (List.replicate n 0)

/-- Embeds `Iterator::next` for `DiscreteModalSolver<Exponential>`: the mode fold
only; the ψ fields are never read or written. -/
noncomputable def nextExponential (s : DiscreteModalSolver Exponential) : DiscreteModalSolver Exponential :=
  let n := s.y.length
  { s with
    stateSpace := s.stateSpace.map (fun m => m.solve s.u)
    y := modeFold Exponential s.u n s.stateSpace }

/-- Embeds `Iterator::next` for `DiscreteModalSolver<ExponentialMatrix>`: the mode
fold, then — when ψ is present — `y` is rebuilt as
`y.iter_mut().zip(psi_times_u).map(|(v1, v2)| v1 + v2).collect()` (a
**truncating** zip) and `psi_times_u` is refilled with `ψ · u`. -/
noncomputable def nextExponentialMatrix (s : DiscreteModalSolver ExponentialMatrix) :
    DiscreteModalSolver ExponentialMatrix :=
  let n := s.y.length
  let ms := s.stateSpace.map (fun m => m.solve s.u)
  let y1 := modeFold ExponentialMatrix s.u n s.stateSpace
  match s.psiDcg with
  | none => { s with stateSpace := ms, y := y1 }
  | some psiDcg =>
    { s with
      stateSpace := ms
      y := List.zipWith (fun v1 v2 => v1 + v2) y1 s.psiTimesU
      psiTimesU := matVec psiDcg s.u }

/-- Modelled from the spec for claim C2 (the claimed zeroing rule, **not** the
code): zero `ψ[j, i]` only when input `i` lies in a drive-torque group and
output `j` lies in the *matching* encoder-angle group — azimuth with azimuth,
elevation with elevation, rotator with rotator. -/
def specZeroMatchingPairs (psi0 : Mat) (ins outs : List SplitFem) : Mat :=
  let zeroPair := fun (p : Mat) (ri ro : ℕ × ℕ) =>
    (rangeList ri).foldl
      (fun p i => (rangeList ro).foldl (fun p j => setEntry p j i 0) p) p
  let stepPair := fun (p : Mat) (tin tout : FemTag) =>
    match findRange ins tin, findRange outs tout with
    | some ri, some ro => zeroPair p ri ro
    | _, _ => p
  stepPair
    (stepPair (stepPair psi0 .ossAzDriveTorque .ossAzEncoderAngle)
      .ossElDriveTorque .ossElEncoderAngle)
    .ossRotDriveTorque .ossRotEncoderAngle

/-- Writes `v` over `u[a..b]`, Rust's `u[a..b].copy_from_slice(v)`. -/
def writeSlice (u : List ℝ) (a b : ℕ) (v : List ℝ) : List ℝ :=
  u.take a ++ v ++ u.drop b

/-- Embeds `Set<U>::set` of `src/dos.rs`: when a descriptor with the group's tag is
selected, copy `v` over its range (`copy_from_slice` panics — `none` — when
the slice lengths disagree or the range exceeds `u`); when the group is not
selected, do nothing. -/
def DiscreteModalSolver.set (s : DiscreteModalSolver T) (t : FemTag) (v : List ℝ) :
    Option (DiscreteModalSolver T) :=
  match s.ins.find? (fun io => io.tag = t) with
  | none => some s
  | some io =>
    if io.range.2 ≤ s.u.length ∧ v.length = io.range.2 - io.range.1 then
      some { s with u := writeSlice s.u io.range.1 io.range.2 v }
    else none

/-! Concrete instances used to exercise the embedding. -/

/-- A four-mode FEM with one single-DOF input group and one single-DOF output
group and a 1×1 static gain, for exercising the DC-compensation build path. -/
noncomputable def fem1 : FEM :=
  { eigenFrequencies := [1, 1, 1, 1]
    inputs := [some ⟨.other 0, [.on [1]]⟩]
    outputs := [some ⟨.other 1, [.on [1]]⟩]
    inputsToModalForces := [1, 1, 1, 1]
    modalDispToOutputs := [1, 1, 1, 1]
    proportionalDampingVec := [2 / 100, 2 / 100, 2 / 100, 2 / 100]
    staticGain := some [2] }

/-- A builder over `fem1` with `use_static_gain_compensation` enabled. -/
noncomputable def cfg1 : DiscreteStateSpace :=
  { sampling := some 1000
    fem := some fem1
    nIo := some (1, 1)
    ins := [⟨.other 0, (0, 0)⟩]
    outs := [⟨.other 1, (0, 0)⟩]
    outsTransform := [none] }

/-- A single-mode FEM (1 Hz, ζ = 0.02) for the eigen-frequency override test. -/
noncomputable def fem4 : FEM :=
  { eigenFrequencies := [1]
    inputs := []
    outputs := []
    inputsToModalForces := []
    modalDispToOutputs := []
    proportionalDampingVec := [2 / 100]
    staticGain := none }

/-- A builder overriding eigen frequency 0 with the value 1 (meant as Hz). -/
noncomputable def cfg4 : DiscreteStateSpace :=
  { sampling := some 1
    fem := some fem4
    eigenFrequencies := some [(0, 1)] }

/-- An empty FEM payload: no groups at all. -/
noncomputable def fem5 : FEM :=
  { eigenFrequencies := []
    inputs := []
    outputs := []
    inputsToModalForces := []
    modalDispToOutputs := []
    proportionalDampingVec := []
    staticGain := none }

/-- A builder selecting an input group that `fem5` does not contain. -/
noncomputable def cfg5 : DiscreteStateSpace :=
  { sampling := some 1
    fem := some fem5
    ins := [⟨.other 9, (0, 0)⟩] }

/-- A one-mode FEM with an output group but no input groups. -/
noncomputable def fem6 : FEM :=
  { eigenFrequencies := [1]
    inputs := []
    outputs := [some ⟨.other 1, [.on [1]]⟩]
    inputsToModalForces := []
    modalDispToOutputs := [5]
    proportionalDampingVec := [2 / 100]
    staticGain := none }

/-- A builder over `fem6` with an empty input selection. -/
noncomputable def cfg6 : DiscreteStateSpace :=
  { sampling := some 1000
    fem := some fem6
    outs := [⟨.other 1, (0, 0)⟩]
    outsTransform := [none] }

/-- A one-mode FEM with no groups at all (1 Hz, ζ = 0.02). -/
noncomputable def fem6b : FEM :=
  { eigenFrequencies := [1]
    inputs := []
    outputs := []
    inputsToModalForces := []
    modalDispToOutputs := []
    proportionalDampingVec := [2 / 100]
    staticGain := none }

/-- A builder over `fem6b` with both selections empty. -/
noncomputable def cfg6b : DiscreteStateSpace :=
  { sampling := some 1000
    fem := some fem6b }

/-- The solver that `build` returns for `cfg6b`: empty `u` and `y`, one mode
with empty `b` and `c`. -/
noncomputable def solver6b : DiscreteModalSolver ExponentialMatrix :=
  { u := []
    y := []
    ySizes := []
    stateSpace := [ExponentialMatrix.fromSecondOrder (1 / 1000) (2 * Real.pi * 1) (2 / 100) [] []]
    psiDcg := none
    psiTimesU := []
    ins := []
    outs := [] }

/-- A one-mode FEM whose single input column is zero, so the mode's Hankel
singular value is zero. -/
noncomputable def fem7 : FEM :=
  { eigenFrequencies := [1]
    inputs := [some ⟨.other 0, [.on [1]]⟩]
    outputs := [some ⟨.other 1, [.on [1]]⟩]
    inputsToModalForces := [0]
    modalDispToOutputs := [1]
    proportionalDampingVec := [2 / 100]
    staticGain := none }

/-- A builder over `fem7` with the Hankel-singular-value threshold 0. -/
noncomputable def cfg7 : DiscreteStateSpace :=
  { sampling := some 1000
    fem := some fem7
    hankelSingularValuesThreshold := some 0
    ins := [⟨.other 0, (0, 0)⟩]
    outs := [⟨.other 1, (0, 0)⟩]
    outsTransform := [none] }

/-- A four-mode FEM whose single input column is zero (so every mode's Hankel
singular value is zero) with a 1×1 static gain, for combining HSV truncation
with the DC-compensation path. -/
noncomputable def fem7b : FEM :=
  { eigenFrequencies := [1, 1, 1, 1]
    inputs := [some ⟨.other 0, [.on [1]]⟩]
    outputs := [some ⟨.other 1, [.on [1]]⟩]
    inputsToModalForces := [0, 0, 0, 0]
    modalDispToOutputs := [1, 1, 1, 1]
    proportionalDampingVec := [2 / 100, 2 / 100, 2 / 100, 2 / 100]
    staticGain := some [2] }

/-- A builder over `fem7b` with the HSV threshold 0 **and**
`use_static_gain_compensation` enabled. -/
noncomputable def cfg7b : DiscreteStateSpace :=
  { sampling := some 1000
    fem := some fem7b
    hankelSingularValuesThreshold := some 0
    nIo := some (1, 1)
    ins := [⟨.other 0, (0, 0)⟩]
    outs := [⟨.other 1, (0, 0)⟩]
    outsTransform := [none] }

/-- Input descriptors for the C2 counterexample: a single azimuth drive-torque
column occupying position 0. -/
def insC2 : List SplitFem := [⟨.ossAzDriveTorque, (0, 1)⟩]

/-- Output descriptors for the C2 counterexample: a single **elevation**
encoder-angle row occupying position 0 — a non-matching pair with `insC2`. -/
def outsC2 : List SplitFem := [⟨.ossElEncoderAngle, (0, 1)⟩]

/-- Output descriptors for the C2 witness: an azimuth encoder-angle row at
position 1. -/
def outsC2W : List SplitFem := [⟨.ossAzEncoderAngle, (1, 2)⟩]

/-- The solver that `build` returns for `cfg7` (all modes truncated). -/
noncomputable def solver7 : DiscreteModalSolver ExponentialMatrix :=
  { u := [0]
    y := [0]
    ySizes := []
    stateSpace := []
    psiDcg := none
    psiTimesU := []
    ins := [⟨.other 0, (0, 1)⟩]
    outs := [⟨.other 1, (0, 1)⟩] }

/-- A mode constructed through the ω = 0 closed form, used to separate the two
`solve` orders. -/
noncomputable def modeC3 : Exponential := Exponential.fromSecondOrder 1 0 (2 / 100) [1] [1]

/-- A concrete `ExponentialMatrix` mode for witnesses. -/
noncomputable def modeMatW : ExponentialMatrix :=
  { tau := 1
    phi := (1, 1, 0, 1)
    gamma := (1, 1)
    b := [1]
    c := [2]
    y := [0]
    x := (3, 4) }

/-- A concrete `Exponential` mode for witnesses. -/
noncomputable def modeExpW : Exponential :=
  { tau := 1
    q := (1, 1, 0, 1)
    m := (1, 1)
    b := [1]
    c := [2]
    y := [0]
    x := (3, 4) }

/-- A concrete solver container with one mode and no ψ, for witnesses. -/
noncomputable def solverW : DiscreteModalSolver Exponential :=
  { u := [1]
    y := [0]
    ySizes := []
    stateSpace := [modeExpW]
    psiDcg := none
    psiTimesU := []
    ins := [⟨.other 0, (0, 1)⟩]
    outs := [⟨.other 1, (0, 1)⟩] }

/-! Helper lemmas. -/

theorem zipWith_ignore_fst {α β γ : Type} (f : β → γ) :
    ∀ (y : List α) (c : List β), y.length = c.length →
      List.zipWith (fun _ cv => f cv) y c = c.map f
  | [], [], _ => rfl
  | _ :: y, _ :: c, h => by
    simpa using zipWith_ignore_fst f y c (by simpa using h)
  | [], _ :: _, h => by simp at h
  | _ :: _, [], h => by simp at h

theorem addInto_nil_right (a : List ℝ) : addInto a [] = a := by
  simp [addInto]

theorem addInto_cons (a b : ℝ) (as bs : List ℝ) :
    addInto (a :: as) (b :: bs) = (a + b) :: addInto as bs := rfl

theorem addInto_length (a y : List ℝ) : (addInto a y).length = a.length := by
  simp [addInto]
  omega

theorem getD_addInto : ∀ (a y : List ℝ) (i : ℕ), i < a.length →
    (addInto a y).getD i 0 = a.getD i 0 + y.getD i 0
  | [], _, i, h => by simp at h
  | _ :: _, [], i, _ => by simp [addInto_nil_right]
  | a :: as, b :: bs, 0, _ => by simp [addInto_cons]
  | a :: as, b :: bs, (i + 1), h => by
    rw [addInto_cons]
    simpa using getD_addInto as bs i (by simpa using h)

theorem foldl_addInto_length (out : α → List ℝ) :
    ∀ (ms : List α) (a : List ℝ),
      (ms.foldl (fun acc m => addInto acc (out m)) a).length = a.length
  | [], _ => rfl
  | m :: ms, a => by
    rw [List.foldl_cons, foldl_addInto_length out ms, addInto_length]

theorem foldl_addInto_getD (out : α → List ℝ) :
    ∀ (ms : List α) (a : List ℝ) (i : ℕ), i < a.length →
      (ms.foldl (fun acc m => addInto acc (out m)) a).getD i 0
        = a.getD i 0 + (ms.map (fun m => (out m).getD i 0)).sum
  | [], _, i, _ => by simp
  | m :: ms, a, i, h => by
    rw [List.foldl_cons,
      foldl_addInto_getD out ms (addInto a (out m)) i (by rw [addInto_length]; exact h),
      getD_addInto a (out m) i h]
    simp
    ring

theorem getD_set {α : Type} (l : List α) (n : ℕ) (a : α) (k : ℕ) (d : α) :
    (l.set n a).getD k d = if n = k ∧ n < l.length then a else l.getD k d := by
  rw [List.getD_eq_getElem?_getD, List.getD_eq_getElem?_getD, List.getElem?_set]
  by_cases h1 : n = k
  · subst h1
    by_cases h2 : n < l.length
    · simp [h2]
    · simp [h2, List.getElem?_eq_none (le_of_not_lt h2)]
  · simp [h1]

theorem length_setEntry (m : Mat) (j i : ℕ) (v : ℝ) :
    (setEntry m j i v).length = m.length := by
  simp [setEntry]

theorem rowLen_setEntry (m : Mat) (j i : ℕ) (v : ℝ) (j2 : ℕ) :
    ((setEntry m j i v).getD j2 []).length = (m.getD j2 []).length := by
  rw [setEntry, getD_set]
  by_cases h : j = j2 ∧ j < m.length
  · rw [if_pos h, ← h.1]
    simp
  · rw [if_neg h]

theorem entry_setEntry (m : Mat) (j i : ℕ) (v : ℝ) (j2 i2 : ℕ) :
    entry (setEntry m j i v) j2 i2
      = if j = j2 ∧ j < m.length ∧ i = i2 ∧ i < (m.getD j []).length then v
        else entry m j2 i2 := by
  rw [entry, entry, setEntry, getD_set]
  by_cases h1 : j = j2 ∧ j < m.length
  · obtain ⟨hj, hl⟩ := h1
    subst hj
    rw [if_pos ⟨rfl, hl⟩, getD_set]
    by_cases h2 : i = i2 ∧ i < (m.getD j []).length
    · rw [if_pos h2, if_pos ⟨rfl, hl, h2⟩]
    · rw [if_neg h2, if_neg (by tauto)]
  · rw [if_neg h1, if_neg (by tauto)]

theorem length_zeroInner (a : ℕ) :
    ∀ (eIdx : List ℕ) (m : Mat),
      (eIdx.foldl (fun p j2 => setEntry p j2 a 0) m).length = m.length
  | [], _ => rfl
  | e :: es, m => by
    rw [List.foldl_cons, length_zeroInner a es, length_setEntry]

theorem rowLen_zeroInner (a : ℕ) :
    ∀ (eIdx : List ℕ) (m : Mat) (j2 : ℕ),
      ((eIdx.foldl (fun p j2 => setEntry p j2 a 0) m).getD j2 []).length
        = (m.getD j2 []).length
  | [], _, _ => rfl
  | e :: es, m, j2 => by
    rw [List.foldl_cons, rowLen_zeroInner a es, rowLen_setEntry]

theorem entry_zeroInner (a : ℕ) :
    ∀ (eIdx : List ℕ) (m : Mat) (j i : ℕ),
      j < m.length → i < (m.getD j []).length →
      entry (eIdx.foldl (fun p j2 => setEntry p j2 a 0) m) j i
        = if j ∈ eIdx ∧ i = a then 0 else entry m j i
  | [], m, j, i, _, _ => by simp
  | e :: es, m, j, i, hj, hi => by
    rw [List.foldl_cons,
      entry_zeroInner a es (setEntry m e a 0) j i
        (by rw [length_setEntry]; exact hj)
        (by rw [rowLen_setEntry]; exact hi),
      entry_setEntry]
    by_cases h1 : j ∈ es ∧ i = a
    · rw [if_pos h1, if_pos ⟨List.mem_cons_of_mem e h1.1, h1.2⟩]
    · rw [if_neg h1]
      by_cases h2 : e = j ∧ i = a
      · rw [if_pos ⟨h2.1, h2.1 ▸ hj, (h2.2 ▸ rfl : a = i), by rw [h2.1]; exact h2.2 ▸ hi⟩,
          if_pos ⟨by rw [← h2.1]; exact List.mem_cons_self e es, h2.2⟩]
      · rw [if_neg (by tauto), if_neg ?hn]
        case hn =>
          rintro ⟨hmem, hia⟩
          rcases List.mem_cons.mp hmem with he | hes
          · exact h2 ⟨he.symm, hia⟩
          · exact h1 ⟨hes, hia⟩

theorem length_zeroLoop :
    ∀ (tIdx : List ℕ) (eIdx : List ℕ) (m : Mat),
      (tIdx.foldl (fun p a => eIdx.foldl (fun p j2 => setEntry p j2 a 0) p) m).length
        = m.length
  | [], _, _ => rfl
  | t :: ts, eIdx, m => by
    rw [List.foldl_cons, length_zeroLoop ts, length_zeroInner]

theorem rowLen_zeroLoop :
    ∀ (tIdx : List ℕ) (eIdx : List ℕ) (m : Mat) (j2 : ℕ),
      ((tIdx.foldl (fun p a => eIdx.foldl (fun p j2 => setEntry p j2 a 0) p) m).getD j2 []).length
        = (m.getD j2 []).length
  | [], _, _, _ => rfl
  | t :: ts, eIdx, m, j2 => by
    rw [List.foldl_cons, rowLen_zeroLoop ts, rowLen_zeroInner]

theorem entry_zeroLoop :
    ∀ (tIdx : List ℕ) (eIdx : List ℕ) (m : Mat) (j i : ℕ),
      j < m.length → i < (m.getD j []).length →
      entry (tIdx.foldl (fun p a => eIdx.foldl (fun p j2 => setEntry p j2 a 0) p) m) j i
        = if i ∈ tIdx ∧ j ∈ eIdx then 0 else entry m j i
  | [], _, m, j, i, _, _ => by simp
  | t :: ts, eIdx, m, j, i, hj, hi => by
    rw [List.foldl_cons,
      entry_zeroLoop ts eIdx (eIdx.foldl (fun p j2 => setEntry p j2 t 0) m) j i
        (by rw [length_zeroInner]; exact hj)
        (by rw [rowLen_zeroInner]; exact hi),
      entry_zeroInner t eIdx m j i hj hi]
    by_cases h1 : i ∈ ts ∧ j ∈ eIdx
    · rw [if_pos h1, if_pos ⟨List.mem_cons_of_mem t h1.1, h1.2⟩]
    · rw [if_neg h1]
      by_cases h2 : j ∈ eIdx ∧ i = t
      · rw [if_pos h2, if_pos ⟨by rw [h2.2]; exact List.mem_cons_self t ts, h2.1⟩]
      · rw [if_neg h2, if_neg ?hn]
        case hn =>
          rintro ⟨hmem, hj2⟩
          rcases List.mem_cons.mp hmem with he | hts
          · exact h2 ⟨hj2, he⟩
          · exact h1 ⟨hts, hj2⟩

theorem filterMap_ite {α β : Type} (p : α → Prop) [DecidablePred p] (f : α → β) :
    ∀ l : List α,
      l.filterMap (fun k => if p k then some (f k) else none)
        = (l.filter (fun k => decide (p k))).map f
  | [] => rfl
  | a :: l => by
    by_cases h : p a <;>
      simp [h, filterMap_ite p f l]

theorem in2modeGo_panics (fem : FEM) :
    ∀ (gs : List SplitFem) (s : ℕ), (∃ g ∈ gs, getIn fem g.tag = none) →
      in2modeGo fem s gs = .error .panicked
  | [], _, h => by simp at h
  | g :: gs, s, h => by
    cases hg : getIn fem g.tag with
    | none => simp only [in2modeGo, hg]
    | some mat =>
      have hex : ∃ g2 ∈ gs, getIn fem g2.tag = none := by
        obtain ⟨g2, hmem, hnone⟩ := h
        rcases List.mem_cons.mp hmem with rfl | htail
        · exact absurd hnone (by rw [hg]; simp)
        · exact ⟨g2, htail, hnone⟩
      simp only [in2modeGo, hg, in2modeGo_panics fem gs (s + ncols mat) hex]

theorem in2modeGo_shape (fem : FEM) :
    ∀ (gs : List SplitFem) (s : ℕ),
      in2modeGo fem s gs = .error .panicked
      ∨ ∃ p, in2modeGo fem s gs = .ok p
  | [], _ => Or.inr ⟨([], []), rfl⟩
  | g :: gs, s => by
    cases hg : getIn fem g.tag with
    | none => exact Or.inl (by simp only [in2modeGo, hg])
    | some mat =>
      rcases in2modeGo_shape fem gs (s + ncols mat) with herr | ⟨⟨gs2, mats⟩, hok⟩
      · exact Or.inl (by simp only [in2modeGo, hg, herr])
      · exact Or.inr ⟨({ g with range := (s, s + ncols mat) } :: gs2, mat :: mats),
          by simp only [in2modeGo, hg, hok]⟩

theorem mode2outGo_panics (fem : FEM) :
    ∀ (gs : List (SplitFem × Option Mat)) (s : ℕ),
      (∃ gt ∈ gs, getOut fem gt.1.tag = none) →
      mode2outGo fem s gs = .error .panicked
  | [], _, h => by simp at h
  | (g, t) :: gs, s, h => by
    cases hg : getOut fem g.tag with
    | none => simp only [mode2outGo, hg]
    | some mat0 =>
      have hex : ∃ gt2 ∈ gs, getOut fem gt2.1.tag = none := by
        obtain ⟨gt2, hmem, hnone⟩ := h
        rcases List.mem_cons.mp hmem with rfl | htail
        · exact absurd hnone (by rw [hg]; simp)
        · exact ⟨gt2, htail, hnone⟩
      simp only [mode2outGo, hg, mode2outGo_panics fem gs _ hex]

theorem propertiesE_fem_some (cfg : DiscreteStateSpace) (fem : FEM)
    (hf : cfg.fem = some fem) :
    ∃ w n z, propertiesE cfg = .ok (w, n, z) := by
  rw [propertiesE, hf]
  exact ⟨_, _, _, rfl⟩

/-! Claim theorems. -/

/-- C8: for every τ > 0 and every pair of vectors b and c, constructing a
mode with ω = 0 succeeds and yields exactly the transition matrix
Φ = [[1, τ], [0, 1]] and the input gain γ = [τ²/2, τ], for both `Exponential`
and `ExponentialMatrix`. -/
theorem omega_zero_closed_form (tau zeta : ℝ) (b c : List ℝ) (htau : 0 < tau) :
    (Exponential.fromSecondOrder tau 0 zeta b c).q = (1, tau, 0, 1)
    ∧ (Exponential.fromSecondOrder tau 0 zeta b c).m = (tau ^ 2 / 2, tau)
    ∧ (ExponentialMatrix.fromSecondOrder tau 0 zeta b c).phi = (1, tau, 0, 1)
    ∧ (ExponentialMatrix.fromSecondOrder tau 0 zeta b c).gamma = (tau ^ 2 / 2, tau) := by
  refine ⟨?_, ?_, ?_, ?_⟩
  · simp [Exponential.fromSecondOrder]
  · simp [Exponential.fromSecondOrder]
    ring
  · simp [ExponentialMatrix.fromSecondOrder, expMatrix3]
  · simp [ExponentialMatrix.fromSecondOrder, expMatrix3, Matrix.cons_val_two]
    ring

/-- Witness for C8 at τ = 1, ζ = 0, b = c = []. -/
theorem omega_zero_closed_form_witness :
    (0 : ℝ) < 1
    ∧ ((Exponential.fromSecondOrder 1 0 0 [] []).q = (1, 1, 0, 1)
      ∧ (Exponential.fromSecondOrder 1 0 0 [] []).m = ((1 : ℝ) ^ 2 / 2, 1)
      ∧ (ExponentialMatrix.fromSecondOrder 1 0 0 [] []).phi = (1, 1, 0, 1)
      ∧ (ExponentialMatrix.fromSecondOrder 1 0 0 [] []).gamma = ((1 : ℝ) ^ 2 / 2, 1)) :=
  ⟨by norm_num, omega_zero_closed_form 1 0 [] [] (by norm_num)⟩

/-- C3 counterexample: for the mode `modeC3` built by
`Exponential::from_second_order` (τ = 1, ω = 0, b = c = [1]) stepped from the
zero state with input [1], the produced output is [0] — the output column
scaled by the **old** position state — while the output column scaled by the
new position state `x[0] = 1/2` would be [1/2].  The claimed
state-first/output-from-new-state order therefore fails for
`Exponential::solve`. -/
theorem exponential_solve_uses_old_state :
    (modeC3.solve [1]).y = [0]
    ∧ modeC3.c.map (fun cv => cv * (modeC3.solve [1]).x.1) = [1 / 2]
    ∧ (0 : ℝ) ≠ 1 / 2 := by
  refine ⟨?_, ?_, by norm_num⟩
  · simp [modeC3, Exponential.fromSecondOrder, Exponential.solve]
  · simp [modeC3, Exponential.fromSecondOrder, Exponential.solve, dotTrunc]
    norm_num

/-- C3 amended: `ExponentialMatrix::solve` first updates the state
`x ← Φx + γ(b·u)` and then produces the output from the **new** state
(`y = c` scaled by the new `x[0]`), while `Exponential::solve` produces the
output from the **previous** state (`y = c` scaled by the old `x[0]`) and then
updates the state by the same formula. -/
theorem solve_state_output_order (sm : ExponentialMatrix) (se : Exponential)
    (u v : List ℝ) (hm : sm.y.length = sm.c.length) (he : se.y.length = se.c.length) :
    ((sm.solve u).x
        = (sm.phi.1 * sm.x.1 + sm.phi.2.1 * sm.x.2 + sm.gamma.1 * dotTrunc sm.b u,
           sm.phi.2.2.1 * sm.x.1 + sm.phi.2.2.2 * sm.x.2 + sm.gamma.2 * dotTrunc sm.b u)
      ∧ (sm.solve u).y = sm.c.map (fun cv => cv * (sm.solve u).x.1))
    ∧ ((se.solve v).y = se.c.map (fun cv => cv * se.x.1)
      ∧ (se.solve v).x
          = (se.q.1 * se.x.1 + se.q.2.1 * se.x.2 + se.m.1 * dotTrunc se.b v,
             se.q.2.2.1 * se.x.1 + se.q.2.2.2 * se.x.2 + se.m.2 * dotTrunc se.b v)) := by
  refine ⟨⟨rfl, ?_⟩, ?_, rfl⟩
  · exact zipWith_ignore_fst (fun cv => cv * (sm.solve u).x.1) sm.y sm.c hm
  · exact zipWith_ignore_fst (fun cv => cv * se.x.1) se.y se.c he

/-- Witness for C3's amended statement at concrete one-DOF modes. -/
theorem solve_state_output_order_witness :
    modeMatW.y.length = modeMatW.c.length
    ∧ modeExpW.y.length = modeExpW.c.length
    ∧ (((modeMatW.solve [1]).x
          = (modeMatW.phi.1 * modeMatW.x.1 + modeMatW.phi.2.1 * modeMatW.x.2
              + modeMatW.gamma.1 * dotTrunc modeMatW.b [1],
             modeMatW.phi.2.2.1 * modeMatW.x.1 + modeMatW.phi.2.2.2 * modeMatW.x.2
              + modeMatW.gamma.2 * dotTrunc modeMatW.b [1])
        ∧ (modeMatW.solve [1]).y
            = modeMatW.c.map (fun cv => cv * (modeMatW.solve [1]).x.1))
      ∧ ((modeExpW.solve [2]).y = modeExpW.c.map (fun cv => cv * modeExpW.x.1)
        ∧ (modeExpW.solve [2]).x
            = (modeExpW.q.1 * modeExpW.x.1 + modeExpW.q.2.1 * modeExpW.x.2
                + modeExpW.m.1 * dotTrunc modeExpW.b [2],
               modeExpW.q.2.2.1 * modeExpW.x.1 + modeExpW.q.2.2.2 * modeExpW.x.2
                + modeExpW.m.2 * dotTrunc modeExpW.b [2]))) :=
  ⟨by simp [modeMatW], by simp [modeExpW],
    solve_state_output_order modeMatW modeExpW [1] [2]
      (by simp [modeMatW]) (by simp [modeExpW])⟩

/-- C10: calling `set::<G>(v)` on a solver whose selected input groups do not
include G leaves the solver — in particular its `u` vector — entirely
unchanged, with no error or panic, for every slice `v`. -/
theorem set_unselected_group_is_noop (T : Type) (s : DiscreteModalSolver T)
    (t : FemTag) (v : List ℝ) (h : ∀ io ∈ s.ins, io.tag ≠ t) :
    s.set t v = some s := by
  have hfind : s.ins.find? (fun io => io.tag = t) = none := by
    rw [List.find?_eq_none]
    intro x hx
    simpa using h x hx
  simp [DiscreteModalSolver.set, hfind]

/-- C4 code evaluation: with the single eigen frequency 1 Hz overridden by the
pair (0, 1), `properties` yields ω₀ = `1.to_radians()` = π/180 rad/s — the
degrees-to-radians conversion — whereas the Hz-to-radians conversion applied
to every non-overridden frequency (`eigen_frequencies_to_radians`) would give
2π·1.  The two disagree, so the override is *not* converted like the
non-overridden eigen frequencies, contradicting the builder's own
documentation that the override values are in Hz. -/
theorem eigen_override_uses_degree_conversion :
    propertiesE cfg4 = .ok ([Real.pi / 180], 1, [2 / 100])
    ∧ Real.pi / 180 ≠ 2 * Real.pi * 1 := by
  constructor
  · simp [propertiesE, cfg4, fem4, applyEigenOverrides, toRadians,
      FEM.eigenFrequenciesToRadians, FEM.nModes]
  · intro h
    have hpi := Real.pi_pos
    have h2 : Real.pi = 360 * Real.pi := by linarith [h]
    linarith

/-- C2 counterexample: with a single azimuth drive-torque input column at
position 0 and a single **elevation** encoder-angle output row at position 0 —
a non-matching drive/encoder pair, which the claim says keeps the value
S − D = [[1]] — the build's zeroing loop sets the entry to zero anyway. -/
theorem psi_zeroing_hits_nonmatching_pair :
    zeroDriveEncoderCoupling (matSub [[1]] [[0]]) insC2 outsC2 = [[0]]
    ∧ specZeroMatchingPairs (matSub [[1]] [[0]]) insC2 outsC2 = [[1]]
    ∧ ([[(0 : ℝ)]] : Mat) ≠ [[1]] := by
  refine ⟨?_, ?_, by simp⟩
  · simp [zeroDriveEncoderCoupling, torqueIndices, encIndices, findRange, insC2, outsC2,
      rangeList, matSub, setEntry, List.range']
  · simp [specZeroMatchingPairs, findRange, insC2, outsC2, matSub]

/-- C2 amended: the ψ zeroing loop sets `ψ[j, i] = 0` for **every** pair with
`i` in any selected drive-torque range and `j` in any selected encoder-angle
range — matching or not — and leaves every other entry at its `S − D` value. -/
theorem psi_zeroing_is_cross_product (S D : Mat) (ins outs : List SplitFem)
    (j i : ℕ) (hj : j < (matSub S D).length)
    (hi : i < ((matSub S D).getD j []).length) :
    entry (zeroDriveEncoderCoupling (matSub S D) ins outs) j i
      = if i ∈ torqueIndices ins ∧ j ∈ encIndices outs then 0
        else entry (matSub S D) j i := by
  rw [zeroDriveEncoderCoupling]
  exact entry_zeroLoop (torqueIndices ins) (encIndices outs) (matSub S D) j i hj hi

/-- Witness for C2's amended statement: a 2×2 ψ with an azimuth torque column
0 and an azimuth encoder row 1; the entry (1, 0) is zeroed. -/
theorem psi_zeroing_is_cross_product_witness :
    (1 : ℕ) < (matSub [[1, 2], [3, 4]] [[0, 0], [0, 0]]).length
    ∧ (0 : ℕ) < ((matSub [[1, 2], [3, 4]] [[0, 0], [0, 0]]).getD 1 []).length
    ∧ entry (zeroDriveEncoderCoupling (matSub [[1, 2], [3, 4]] [[0, 0], [0, 0]])
        insC2 outsC2W) 1 0
      = if 0 ∈ torqueIndices insC2 ∧ 1 ∈ encIndices outsC2W then 0
        else entry (matSub [[1, 2], [3, 4]] [[0, 0], [0, 0]]) 1 0 :=
  ⟨by simp [matSub], by simp [matSub],
    psi_zeroing_is_cross_product [[1, 2], [3, 4]] [[0, 0], [0, 0]] insC2 outsC2W 1 0
      (by simp [matSub]) (by simp [matSub])⟩

/-- C5 counterexample: selecting input group `other 9`, which `fem5` does not
contain, makes `build` end in a panic (`Option::unwrap` on `None` inside
`in2mode`), not in a typed configuration error naming the group. -/
theorem build_missing_group_panic_eval :
    build ExponentialMatrix cfg5 = .error .panicked := by
  simp [build, cfg5, fem5, propertiesE, FEM.eigenFrequenciesToRadians, FEM.nModes,
    in2modeE, in2modeGo, getIn, FEM.in2modes, positionIn]

/-- C5 amended: whenever a selected input or output group is absent from the
FEM payload (its `get_in`/`get_out` lookup yields `None`), `build` panics via
`Option::unwrap` instead of returning a typed error naming the group. -/
theorem build_panics_on_missing_group (T : Type) [Solver T] (cfg : DiscreteStateSpace)
    (r : ℝ) (fem : FEM) (hs : cfg.sampling = some r) (hf : cfg.fem = some fem)
    (habs : (∃ g ∈ cfg.ins, getIn fem g.tag = none)
        ∨ ∃ gt ∈ cfg.outs.zip cfg.outsTransform, getOut fem gt.1.tag = none) :
    build T cfg = .error .panicked := by
  obtain ⟨w, n, z, hprop⟩ := propertiesE_fem_some cfg fem hf
  rcases habs with hin | hout
  · have h1 : in2modeE cfg n = .error .panicked := by
      simp only [in2modeE, hf, in2modeGo_panics fem cfg.ins 0 hin]
    simp only [build, hs, hprop, h1]
  · rcases in2modeGo_shape fem cfg.ins 0 with herr | ⟨⟨gs2, mats⟩, hok⟩
    · have h1 : in2modeE cfg n = .error .panicked := by
        simp only [in2modeE, hf, herr]
      simp only [build, hs, hprop, h1]
    · by_cases hn : n = 0
      · have h1 : in2modeE cfg n = .error .panicked := by
          simp only [in2modeE, hf, hok, if_pos hn]
        simp only [build, hs, hprop, h1]
      · have h1 : in2modeE cfg n
            = .ok (some (gs2, hcatRows n (mats.map (fun m => m.take n)))) := by
          simp only [in2modeE, hf, hok, if_neg hn]
        have h2 : mode2outE cfg n = .error .panicked := by
          simp only [mode2outE, hf, mode2outGo_panics fem _ 0 hout]
        simp only [build, hs, hprop, h1, h2]

/-- Witness for C5's amended statement at `cfg5`. -/
theorem build_panics_on_missing_group_witness :
    cfg5.sampling = some 1 ∧ cfg5.fem = some fem5
    ∧ (∃ g ∈ cfg5.ins, getIn fem5 g.tag = none)
    ∧ build ExponentialMatrix cfg5 = .error .panicked :=
  ⟨rfl, rfl,
    ⟨⟨.other 9, (0, 0)⟩, by simp [cfg5],
      by simp [getIn, FEM.in2modes, positionIn, fem5]⟩,
    build_panics_on_missing_group ExponentialMatrix cfg5 1 fem5 rfl rfl
      (Or.inl ⟨⟨.other 9, (0, 0)⟩, by simp [cfg5],
        by simp [getIn, FEM.in2modes, positionIn, fem5]⟩)⟩

/-- C6 counterexample: with a FEM and a sampling rate but an empty input
selection, `build` does **not** return an error: it succeeds and returns a
solver whose `u` vector is empty (and whose `y` has length 1). -/
theorem build_empty_input_selection_ok :
    (build ExponentialMatrix cfg6).map (fun s => (s.u, s.y.length))
      = .ok (([] : List ℝ), 1) := by
  simp [build, cfg6, fem6, propertiesE, FEM.eigenFrequenciesToRadians, FEM.nModes,
    in2modeE, in2modeGo, mode2outE, mode2outGo, getOut, FEM.modes2out, positionOut,
    FEM.modes2output, FemGroup.onIndices, chunks, computePsiDcg, hcatRows, ncols, nrows,
    mkStateSpace, Except.map]

/-- C6 amended: `build` does not reject empty group selections; whenever it
succeeds on a configuration with no selected input groups its solver has an
empty `u`, and with no selected output groups an empty `y`. -/
theorem build_accepts_empty_selection (T : Type) [Solver T] (cfg : DiscreteStateSpace)
    (s : DiscreteModalSolver T) (hbuild : build T cfg = .ok s) :
    (cfg.ins = [] → s.u = []) ∧ (cfg.outs = [] → s.y = []) := by
  unfold build at hbuild
  split at hbuild
  · simp at hbuild
  · split at hbuild
    · simp at hbuild
    · split at hbuild <;> try simp at hbuild
      rename_i w nModes zeta hprop x1 x2 ins2 f2m outs2 m2n hin hout
      split at hbuild
      · simp at hbuild
      · rw [Except.ok.injEq] at hbuild
        subst hbuild
        constructor
        · intro hins
          cases hfem : cfg.fem with
          | none =>
            rw [in2modeE, hfem] at hin
            simp at hin
          | some fem =>
            rw [in2modeE, hfem, hins] at hin
            simp only [in2modeGo, List.map_nil] at hin
            by_cases hn : nModes = 0
            · rw [if_pos hn] at hin
              simp at hin
            · rw [if_neg hn] at hin
              rw [Except.ok.injEq, Option.some.injEq, Prod.mk.injEq] at hin
              obtain ⟨_, h2⟩ := hin
              show List.replicate (ncols f2m) 0 = []
              rw [← h2]
              cases nModes <;> simp [hcatRows, ncols, List.replicate_succ]
        · intro houts
          cases hfem : cfg.fem with
          | none =>
            rw [mode2outE, hfem] at hout
            simp at hout
          | some fem =>
            rw [mode2outE, hfem, houts] at hout
            simp only [List.zip_nil_left, mode2outGo, List.map_nil, List.flatten_nil] at hout
            by_cases hn : nModes = 0
            · rw [if_pos hn] at hout
              simp at hout
            · rw [if_neg hn] at hout
              rw [Except.ok.injEq, Option.some.injEq, Prod.mk.injEq] at hout
              obtain ⟨_, h2⟩ := hout
              show List.replicate (nrows m2n) 0 = []
              rw [← h2]
              simp [nrows]

/-- Witness for C6's amended statement: the zero-mode, empty-selection build
succeeds with empty `u` and `y`. -/
theorem build_accepts_empty_selection_witness :
    build ExponentialMatrix cfg6b = .ok solver6b
    ∧ solver6b.u = [] ∧ solver6b.y = [] :=
  ⟨rfl,
    (build_accepts_empty_selection ExponentialMatrix cfg6b solver6b rfl).1 rfl,
    (build_accepts_empty_selection ExponentialMatrix cfg6b solver6b rfl).2 rfl⟩

/-- C7: with `truncate_hankel_singular_values(t)` configured, exactly the
retained-frequency modes with `hsv > t` are instantiated (where
`hsv = 0.25·‖b‖·‖c‖/(ω·ζ)`), and when `t` is at least every mode's `hsv` —
in the regime `ω·ζ > 0` where the formula is finite — `state_space` is empty
and a step leaves `y` as the all-zero vector of its build-time length. -/
theorem hsv_truncation (cfg : DiscreteStateSpace) (r t : ℝ) (w : List ℝ)
    (nModes : ℕ) (zeta : List ℝ) (ins2 outs2 : List SplitFem) (f2m m2n : Mat)
    (s : DiscreteModalSolver ExponentialMatrix)
    (hs : cfg.sampling = some r)
    (hthr : cfg.hankelSingularValuesThreshold = some t)
    (hnio : cfg.nIo = none)
    (hprop : propertiesE cfg = .ok (w, nModes, zeta))
    (hin : in2modeE cfg nModes = .ok (some (ins2, f2m)))
    (hout : mode2outE cfg nModes = .ok (some (outs2, m2n)))
    (hbuild : build ExponentialMatrix cfg = .ok s) :
    s.stateSpace
      = ((List.range nModes).filter (fun k =>
          decide (hankelSingularValue (w.getD k 0) (zeta.getD k 0)
            (row f2m k) (col m2n k) > t))).map
        (fun k => ExponentialMatrix.fromSecondOrder (1 / r) (w.getD k 0) (zeta.getD k 0)
          (row f2m k) (col m2n k))
    ∧ ((∀ k, k < nModes → 0 < w.getD k 0 * zeta.getD k 0
          ∧ hankelSingularValue (w.getD k 0) (zeta.getD k 0) (row f2m k) (col m2n k) ≤ t) →
        s.stateSpace = [] ∧ (nextExponentialMatrix s).y = List.replicate s.y.length 0) := by
  have hpsiOk : computePsiDcg cfg w nModes f2m m2n ins2 outs2 = .ok none := by
    simp only [computePsiDcg, hnio]
  have hbuild2 : build ExponentialMatrix cfg
      = .ok { u := List.replicate (ncols f2m) 0, y := List.replicate (nrows m2n) 0,
              ySizes := [],
              stateSpace := mkStateSpace ExponentialMatrix (1 / r) w zeta nModes f2m m2n
                (some t),
              psiDcg := none, psiTimesU := [], ins := ins2, outs := outs2 } := by
    simp only [build, hs, hprop, hin, hout, hpsiOk, hthr]
  rw [hbuild2, Except.ok.injEq] at hbuild
  subst hbuild
  have hstate : mkStateSpace ExponentialMatrix (1 / r) w zeta nModes f2m m2n (some t)
      = ((List.range nModes).filter (fun k =>
          decide (hankelSingularValue (w.getD k 0) (zeta.getD k 0)
            (row f2m k) (col m2n k) > t))).map
        (fun k => ExponentialMatrix.fromSecondOrder (1 / r) (w.getD k 0) (zeta.getD k 0)
          (row f2m k) (col m2n k)) := by
    rw [mkStateSpace]
    exact filterMap_ite
      (fun k => hankelSingularValue (w.getD k 0) (zeta.getD k 0) (row f2m k) (col m2n k) > t)
      (fun k => ExponentialMatrix.fromSecondOrder (1 / r) (w.getD k 0) (zeta.getD k 0)
        (row f2m k) (col m2n k))
      (List.range nModes)
  refine ⟨hstate, fun hall => ?_⟩
  have hfilter : (List.range nModes).filter (fun k =>
      decide (hankelSingularValue (w.getD k 0) (zeta.getD k 0)
        (row f2m k) (col m2n k) > t)) = [] := by
    rw [List.filter_eq_nil_iff]
    intro k hk
    simp only [decide_eq_true_eq]
    exact not_lt.mpr ((hall k (List.mem_range.mp hk)).2)
  have hempty : mkStateSpace ExponentialMatrix (1 / r) w zeta nModes f2m m2n (some t) = [] := by
    rw [hstate, hfilter, List.map_nil]
  constructor
  · exact hempty
  · show (nextExponentialMatrix _).y = _
    rw [nextExponentialMatrix]
    simp only [hempty, modeFold, List.foldl_nil]

/-- C1 code evaluation: `cfg1` is built with `use_static_gain_compensation`,
so `psi_dcg` is `Some` and the build-time `y` has length 1; but `psi_times_u`
comes from `Default::default()` as the **empty** vector, so the very first
step's truncating zip `y.iter_mut().zip(psi_times_u).map(..).collect()`
replaces `y` by the empty vector instead of a length-1 vector carrying the
mode contributions plus ψ·u of the previous step. -/
theorem first_step_with_psi_empties_y :
    (build ExponentialMatrix cfg1).map
      (fun s => (s.psiDcg.isSome, s.psiTimesU, s.y.length, (nextExponentialMatrix s).y))
      = .ok (true, ([] : List ℝ), 1, ([] : List ℝ)) := by
  simp [build, cfg1, fem1, propertiesE, FEM.eigenFrequenciesToRadians, FEM.nModes,
    in2modeE, in2modeGo, getIn, FEM.in2modes, positionIn, FEM.input2modes,
    FemGroup.onIndices, chunks, ncols, hcatRows, mode2outE, mode2outGo, getOut,
    FEM.modes2out, positionOut, FEM.modes2output, nrows, computePsiDcg, reduce2io,
    FEM.trim2in, FEM.trim2input, FEM.trim2out, FEM.trim2output, hcatAny, diagMat,
    matMul, matSub, matVec, dotTrunc, col, removeCols, removeRows,
    zeroDriveEncoderCoupling, torqueIndices, encIndices, findRange, rangeList,
    nextExponentialMatrix, Except.map, List.zipWith_nil_right]

/-- C7 counterexample: with the HSV threshold at 0 (at least every mode's
`hsv`, which is 0 since `b = [0]`) **and** static-gain compensation enabled,
`cfg7b` builds with an empty `state_space` and `y` of length 1 — but a step
leaves `y` as the **empty** vector (the truncating zip with the
default-empty `psi_times_u`), not the all-zero vector of the build-time
length that the claim promises. -/
theorem hsv_truncation_with_psi_breaks_zero_step :
    (build ExponentialMatrix cfg7b).map
      (fun s => (s.stateSpace.length, s.y.length, (nextExponentialMatrix s).y))
      = .ok (0, 1, ([] : List ℝ))
    ∧ ([] : List ℝ) ≠ List.replicate 1 0 := by
  refine ⟨?_, by simp⟩
  simp [build, cfg7b, fem7b, propertiesE, FEM.eigenFrequenciesToRadians, FEM.nModes,
    in2modeE, in2modeGo, getIn, FEM.in2modes, positionIn, FEM.input2modes,
    FemGroup.onIndices, chunks, ncols, hcatRows, mode2outE, mode2outGo, getOut,
    FEM.modes2out, positionOut, FEM.modes2output, nrows, computePsiDcg, reduce2io,
    FEM.trim2in, FEM.trim2input, FEM.trim2out, FEM.trim2output, hcatAny, diagMat,
    matMul, matSub, matVec, dotTrunc, col, removeCols, removeRows,
    zeroDriveEncoderCoupling, torqueIndices, encIndices, findRange, rangeList,
    mkStateSpace, hankelSingularValue, row, nextExponentialMatrix, Except.map,
    List.zipWith_nil_right]
  intro a ha
  interval_cases a <;> simp

/-- Witness for C7 at `cfg7`: the single mode has `b = [0]`, hence `hsv = 0`;
with threshold 0 the mode bank is empty and a step returns the zero output. -/
theorem hsv_truncation_witness :
    build ExponentialMatrix cfg7 = .ok solver7
    ∧ solver7.stateSpace = []
    ∧ (nextExponentialMatrix solver7).y = List.replicate solver7.y.length 0 := by
  have hb : build ExponentialMatrix cfg7 = .ok solver7 := by
    simp [build, cfg7, fem7, propertiesE, FEM.eigenFrequenciesToRadians, FEM.nModes,
      in2modeE, in2modeGo, getIn, FEM.in2modes, positionIn, FEM.input2modes,
      FemGroup.onIndices, chunks, ncols, hcatRows, mode2outE, mode2outGo, getOut,
      FEM.modes2out, positionOut, FEM.modes2output, nrows, computePsiDcg, mkStateSpace,
      hankelSingularValue, row, col, solver7]
  have hin : in2modeE cfg7 1 = .ok (some ([⟨.other 0, (0, 1)⟩], [[0]])) := by
    simp [in2modeE, cfg7, fem7, in2modeGo, getIn, FEM.in2modes, positionIn,
      FEM.input2modes, FemGroup.onIndices, chunks, ncols, hcatRows, FEM.nModes]
  have hout : mode2outE cfg7 1 = .ok (some ([⟨.other 1, (0, 1)⟩], [[1]])) := by
    simp [mode2outE, cfg7, fem7, mode2outGo, getOut, FEM.modes2out, positionOut,
      FEM.modes2output, FemGroup.onIndices, chunks, nrows, FEM.nModes]
  have h := hsv_truncation cfg7 1000 0 [2 * Real.pi * 1] 1 [2 / 100]
    [⟨.other 0, (0, 1)⟩] [⟨.other 1, (0, 1)⟩] [[0]] [[1]] solver7
    rfl rfl rfl rfl hin hout hb
  refine ⟨hb, h.2 ?_⟩
  intro k hk
  interval_cases k
  constructor
  · simp
    positivity
  · simp [hankelSingularValue, row, col]

/-- C9: every step of `DiscreteModalSolver<Exponential>` leaves the `psi_dcg`
matrix and the `psi_times_u` buffer untouched, the ψ fields have no effect on
the produced `y` even when `psi_dcg` is `Some`, the output keeps the length of
`y`, and each entry of the new `y` is exactly the sum of the per-mode
contributions at that position. -/
theorem exponential_step_ignores_psi (s : DiscreteModalSolver Exponential) :
    (nextExponential s).psiDcg = s.psiDcg
    ∧ (nextExponential s).psiTimesU = s.psiTimesU
    ∧ (∀ p q, (nextExponential { s with psiDcg := p, psiTimesU := q }).y
        = (nextExponential s).y)
    ∧ (nextExponential s).y.length = s.y.length
    ∧ (∀ i, i < s.y.length →
        (nextExponential s).y.getD i 0
          = (s.stateSpace.map
              (fun m => (Solver.output (Solver.solve m s.u)).getD i 0)).sum) := by
  refine ⟨rfl, rfl, fun p q => rfl, ?_, ?_⟩
  · show (modeFold Exponential s.u s.y.length s.stateSpace).length = s.y.length
    rw [modeFold, foldl_addInto_length, List.length_replicate]
  · intro i hi
    show (modeFold Exponential s.u s.y.length s.stateSpace).getD i 0 = _
    rw [modeFold,
      foldl_addInto_getD (fun m => Solver.output (Solver.solve m s.u)) s.stateSpace
        (List.replicate s.y.length 0) i (by rw [List.length_replicate]; exact hi)]
    simp

/-- Witness for C9 on the one-mode solver `solverW` at position 0. -/
theorem exponential_step_ignores_psi_witness :
    0 < solverW.y.length
    ∧ (nextExponential solverW).y.getD 0 0
      = (solverW.stateSpace.map
          (fun m => (Solver.output (Solver.solve m solverW.u)).getD 0 0)).sum :=
  ⟨by simp [solverW],
    (exponential_step_ignores_psi solverW).2.2.2.2 0 (by simp [solverW])⟩

/-- Witness for C10: setting an unselected group on `solverW`. -/
theorem set_unselected_group_is_noop_witness :
    solverW.set (.other 5) [9] = some solverW := by
  apply set_unselected_group_is_noop
  intro io hio
  simp only [solverW] at hio
  rcases List.mem_cons.mp hio with rfl | habs
  · simp
  · simp at habs

end Fem
